import Mathlib

/-!
Verification of the XML-tag extraction helpers of screenshot-ai-renamer-macos
(`src/tools/llm_wrapper.py`): `extract_xml_tag` and `extract_response_text`.

Python strings are modelled as `List Char`.  `str.lower()` is modelled
char-wise by `Char.toLower` (the ASCII case mapping); `str.strip()` /
`str.rstrip()` use the ASCII whitespace characters that Python strips.
The regular expression `<response[^>]*>(.*?)</response[^>]*>` used by
`extract_response_text` (with `IGNORECASE | DOTALL`) is modelled by its
forced operational behaviour: `re.search` tries start positions left to
right; `[^>]*>` must consume exactly up to the first `'>'` after the
literal, and the lazy `(.*?)` stops at the least position where the
closing part matches.
-/

namespace LlmWrapper

/-- Python `str.lower()`, modelled char-wise with the ASCII case mapping. -/
def pyLower (s : List Char) : List Char := s.map Char.toLower

/-- The whitespace characters stripped by Python `str.strip()` (ASCII range). -/
def isPyWs (c : Char) : Bool :=
  c = ' ' || c = '\t' || c = '\n' || c = '\r' || c = Char.ofNat 11 || c = Char.ofNat 12

/-- Python `str.rstrip()`. -/
def pyRstrip (s : List Char) : List Char := (s.reverse.dropWhile isPyWs).reverse

/-- Python `str.strip()`. -/
def pyStrip (s : List Char) : List Char := (pyRstrip s).dropWhile isPyWs

/-- `occursAt p s i`: the pattern `p` occurs in `s` starting at index `i`,
    i.e. Python `s[i:i+len(p)] == p`. -/
def occursAt (p s : List Char) (i : Nat) : Bool := (s.drop i).take p.length == p

/-- Scan `n` consecutive candidates `i, i+1, ..., i+n-1` and return the first
    one satisfying `q`. -/
def scanFirst (q : Nat → Bool) (i : Nat) : Nat → Option Nat
  | 0 => none
  | n + 1 => if q i then some i else scanFirst q (i + 1) n

/-- Python `s.find(p, i)`: the least index `j ≥ i` at which `p` occurs in `s`
    (Python returns `-1`, modelled `none`, when there is none).  Candidate
    positions beyond `s.length` never carry an occurrence of a non-empty
    pattern, so scanning the window `[i, s.length]` is exhaustive. -/
def findFrom (s p : List Char) (i : Nat) : Option Nat :=
  scanFirst (fun j => occursAt p s j) i (s.length + 1 - i)

/-- Scan of `rfindStr`: tries `i, i-1, ..., 0` and returns the first hit. -/
def rfindAux (s p : List Char) (i : Nat) : Option Nat :=
  if occursAt p s i then some i
  else
    match i with
    | 0 => none
    | j + 1 => rfindAux s p j

/-- Python `s.rfind(p)`: the greatest index at which `p` occurs in `s`. -/
def rfindStr (s p : List Char) : Option Nat := rfindAux s p s.length

/-- Python slice `s[a:b]` (for `0 ≤ a`, `0 ≤ b`). -/
def slice (s : List Char) (a b : Nat) : List Char := (s.take b).drop a

/-- `extract_xml_tag` of `src/tools/llm_wrapper.py`: extract the content of
    the last occurrence of `<tag>...</tag>`, tolerating a missing close.
    The opening token is `f"<{tag}"` and the closing token `f"</{tag}"`;
    both are searched in the lowercased text; the `'>'` ending the opening
    tag is searched in the raw text. -/
def extract_xml_tag (raw_text : List Char) (tag : List Char) : List Char :=
  if raw_text = [] then []
  else
    match rfindStr (pyLower raw_text) ('<' :: tag) with
    | none => []
    | some start_idx =>
      match findFrom raw_text ['>'] start_idx with
      | none => []
      | some gt_idx =>
        match findFrom (pyLower raw_text) ('<' :: '/' :: tag) (gt_idx + 1) with
        | none => pyStrip (raw_text.drop (gt_idx + 1))
        | some close_idx => pyStrip (slice raw_text (gt_idx + 1) close_idx)

/-- The token `"<response"` searched by `extract_response_text`. -/
def respOpen : List Char := "<response".data

/-- The closing token `"</response"` (without the final `'>'`). -/
def respClose : List Char := "</response".data

/-- The full closing tag `"</response>"` appended when the text is truncated. -/
def respCloseFull : List Char := "</response>".data

/-- Does the closing part `</response[^>]*>` of the regex match at `c`?
    `[^>]*>` is forced to consume up to the first `'>'` at or after
    `c + 10`, so the part matches iff `</response` occurs (case-insensitively)
    at `c` and some `'>'` occurs at or after `c + 10`. -/
def closeMatchAt (t : List Char) (c : Nat) : Bool :=
  occursAt respClose (pyLower t) c && (findFrom t ['>'] (c + respClose.length)).isSome

/-- The least `c ≥ i` at which the closing part of the regex matches
    (where the lazy `(.*?)` hands over to `</response[^>]*>`). -/
def findCloseFrom (t : List Char) (i : Nat) : Option Nat :=
  scanFirst (fun c => closeMatchAt t c) i (t.length + 1 - i)

/-- Match of `<response[^>]*>(.*?)</response[^>]*>` at start position `s`:
    `<response` must occur (case-insensitively) at `s`, `[^>]*>` consumes up
    to the first `'>'` at or after `s + 9`, and the lazy group ends at the
    least `c` past it where the closing part matches; group 1 is `t[g+1:c]`. -/
def matchGroupAt (t : List Char) (s : Nat) : Option (List Char) :=
  if occursAt respOpen (pyLower t) s then
    match findFrom t ['>'] (s + respOpen.length) with
    | none => none
    | some g =>
      match findCloseFrom t (g + 1) with
      | none => none
      | some c => some (slice t (g + 1) c)
  else none

/-- `re.search` of the response regex: the match at the leftmost start
    position, if any. -/
def regexSearch (t : List Char) : Option (List Char) :=
  match scanFirst (fun s => (matchGroupAt t s).isSome) 0 (t.length + 1) with
  | none => none
  | some s => matchGroupAt t s

/-- Python `s.endswith(t)`: `t` equals the final `len(t)`-character slice
    of `s`. -/
def pyEndsWith (s t : List Char) : Bool :=
  t.length ≤ s.length && occursAt t s (s.length - t.length)

/-- The closing-tag synthesis step of `extract_response_text`: if the text
    from the last `<response` onward does not already end (after `rstrip`
    and lowercasing) with `</response>`, append one. -/
def respFix (after0 : List Char) : List Char :=
  if pyEndsWith (pyLower (pyRstrip after0)) respCloseFull then after0
  else after0 ++ respCloseFull

/-- `extract_response_text` of `src/tools/llm_wrapper.py`: extract the content
    of the last `<response>...</response>`, synthesizing a closing tag when
    the text does not already end with one. -/
def extract_response_text (raw_text : List Char) : List Char :=
  if raw_text = [] then []
  else
    match rfindStr (pyLower raw_text) respOpen with
    | none => []
    | some start_idx =>
      match regexSearch (respFix (raw_text.drop start_idx)) with
      | none => []
      | some grp => pyStrip grp

/-! ### Character-level lemmas -/

lemma charEqOfToNat {a b : Char} (h : a.toNat = b.toNat) : a = b :=
  Char.eq_of_val_eq (UInt32.toNat.inj h)

lemma toNat_toLower (c : Char) :
    (Char.toLower c).toNat = if 65 ≤ c.toNat ∧ c.toNat ≤ 90 then c.toNat + 32 else c.toNat := by
  unfold Char.toLower
  split
  case isTrue h =>
    rw [if_pos (by omega)]
    have hv : (c.toNat + 32).isValidChar := Or.inl (by omega)
    rw [Char.ofNat, dif_pos hv]
    rfl
  case isFalse h =>
    rw [if_neg (by omega)]

/-- `toLower` creates and destroys no character whose code is below 65
    (such as `'<'`, `'>'`, `'/'` and the whitespace characters). -/
lemma toLower_eq_symbol {c c₀ : Char} (h0 : c₀.toNat < 65) :
    Char.toLower c = c₀ ↔ c = c₀ := by
  constructor
  · intro h
    have ht := toNat_toLower c
    rw [h] at ht
    apply charEqOfToNat
    revert ht
    split <;> intro ht <;> omega
  · rintro rfl
    have ht := toNat_toLower c
    rw [if_neg (by omega)] at ht
    exact charEqOfToNat ht

lemma toLower_eq_self_of_isLower {c : Char} (h : c.isLower = true) :
    Char.toLower c = c := by
  have hn : 97 ≤ c.toNat ∧ c.toNat ≤ 122 := by
    simp only [Char.isLower, decide_eq_true_eq, Bool.and_eq_true] at h
    exact ⟨h.1, h.2⟩
  have ht := toNat_toLower c
  rw [if_neg (by omega)] at ht
  exact charEqOfToNat ht

lemma isLower_toNat {c : Char} (h : c.isLower = true) : 97 ≤ c.toNat ∧ c.toNat ≤ 122 := by
  simp only [Char.isLower, decide_eq_true_eq, Bool.and_eq_true] at h
  exact ⟨h.1, h.2⟩

lemma isLower_ne_symbol {c c₀ : Char} (h : c.isLower = true) (h0 : c₀.toNat < 97) : c ≠ c₀ := by
  intro hc
  have := isLower_toNat h
  rw [hc] at this
  omega

lemma isPyWs_toNat {c : Char} (h : isPyWs c = true) : c.toNat ≤ 32 := by
  simp only [isPyWs, Bool.or_eq_true, decide_eq_true_eq] at h
  rcases h with ((((h | h) | h) | h) | h) | h <;> subst h <;> decide

lemma isPyWs_eq_false_of_toNat {c : Char} (h : 32 < c.toNat) : isPyWs c = false := by
  cases hw : isPyWs c
  · rfl
  · have := isPyWs_toNat hw
    omega

lemma isPyWs_toLower (c : Char) : isPyWs (Char.toLower c) = isPyWs c := by
  have ht := toNat_toLower c
  by_cases h : 65 ≤ c.toNat ∧ c.toNat ≤ 90
  · rw [if_pos h] at ht
    rw [@isPyWs_eq_false_of_toNat (Char.toLower c) (by omega),
      @isPyWs_eq_false_of_toNat c (by omega)]
  · rw [if_neg h] at ht
    rw [charEqOfToNat ht]

/-! ### `pyLower` lemmas -/

lemma length_pyLower (s : List Char) : (pyLower s).length = s.length :=
  List.length_map s Char.toLower

lemma pyLower_append (a b : List Char) : pyLower (a ++ b) = pyLower a ++ pyLower b :=
  List.map_append Char.toLower a b

lemma pyLower_drop (s : List Char) (n : Nat) : pyLower (s.drop n) = (pyLower s).drop n :=
  List.map_drop Char.toLower s n

lemma pyLower_take (s : List Char) (n : Nat) : pyLower (s.take n) = (pyLower s).take n :=
  List.map_take Char.toLower s n

lemma getElem?_pyLower (s : List Char) (k : Nat) :
    (pyLower s)[k]? = Option.map Char.toLower s[k]? :=
  List.getElem?_map Char.toLower s k

/-- Positions of low-code characters (like `'<'` and `'>'`) are invariant
    under `pyLower`. -/
lemma pyLower_at_symbol {s : List Char} {k : Nat} {c₀ : Char} (h0 : c₀.toNat < 65) :
    (pyLower s)[k]? = some c₀ ↔ s[k]? = some c₀ := by
  rw [getElem?_pyLower]
  cases h : s[k]?
  · simp
  · simp only [Option.map_some', Option.some.injEq]
    exact toLower_eq_symbol h0

/-! ### `occursAt` lemmas -/

lemma occursAt_iff {p s : List Char} {i : Nat} :
    occursAt p s i = true ↔ ∀ m, m < p.length → s[i + m]? = p[m]? := by
  unfold occursAt
  rw [beq_iff_eq]
  constructor
  · intro h m hm
    have := congrArg (fun l => l[m]?) h
    simp only [List.getElem?_take, List.getElem?_drop, hm, if_true] at this
    exact this
  · intro h
    apply List.ext_getElem?
    intro n
    by_cases hn : n < p.length
    · rw [List.getElem?_take, if_pos hn, List.getElem?_drop]
      exact h n hn
    · rw [List.getElem?_take, if_neg hn, List.getElem?_eq_none (by omega)]

lemma occursAt_get {p s : List Char} {i : Nat} (h : occursAt p s i = true)
    {m : Nat} (hm : m < p.length) : s[i + m]? = p[m]? :=
  occursAt_iff.mp h m hm

lemma occursAt_le_length {p s : List Char} {i : Nat} (hp : p ≠ [])
    (h : occursAt p s i = true) : i + p.length ≤ s.length := by
  have hlen : 0 < p.length := List.length_pos.mpr hp
  have h1 := occursAt_get h (show p.length - 1 < p.length by omega)
  rw [List.getElem?_eq_getElem (show p.length - 1 < p.length by omega)] at h1
  rcases List.getElem?_eq_some.mp h1 with ⟨hlt, _⟩
  omega

lemma occursAt_eq_false_of_length {p s : List Char} {i : Nat} (hp : p ≠ [])
    (h : s.length < i + p.length) : occursAt p s i = false := by
  cases ho : occursAt p s i
  · rfl
  · have := occursAt_le_length hp ho
    omega

lemma occursAt_drop {p s : List Char} {d j : Nat} :
    occursAt p (s.drop d) j = occursAt p s (d + j) := by
  unfold occursAt
  rw [List.drop_drop]

lemma occursAt_append_left {p a b : List Char} {i : Nat} (h : i + p.length ≤ a.length) :
    occursAt p (a ++ b) i = occursAt p a i := by
  cases hp : occursAt p a i
  · cases hab : occursAt p (a ++ b) i
    · rfl
    · exfalso
      rw [← Bool.not_eq_true] at hp
      apply hp
      rw [occursAt_iff]
      intro m hm
      have := occursAt_get hab hm
      rwa [List.getElem?_append_left (by omega)] at this
  · rw [occursAt_iff]
    intro m hm
    rw [List.getElem?_append_left (by omega)]
    exact occursAt_get hp hm

lemma occursAt_append_right {p a b : List Char} {i : Nat} (h : a.length ≤ i) :
    occursAt p (a ++ b) i = occursAt p b (i - a.length) := by
  unfold occursAt
  rw [List.drop_append_eq_append_drop, List.drop_eq_nil_of_le h, List.nil_append]

lemma occursAt_take {p s : List Char} {n j : Nat} (h : occursAt p (s.take n) j = true) :
    occursAt p s j = true := by
  rw [occursAt_iff]
  intro m hm
  have hx := occursAt_get h hm
  rw [List.getElem?_take] at hx
  by_cases hjn : j + m < n
  · rwa [if_pos hjn] at hx
  · rw [if_neg hjn] at hx
    by_cases hmp : m < p.length
    · rw [List.getElem?_eq_getElem hmp] at hx
      exact absurd hx.symm (by simp)
    · omega

/-! ### `scanFirst` specification -/

lemma scanFirst_eq_some_iff {q : Nat → Bool} {i n j : Nat} :
    scanFirst q i n = some j ↔
      i ≤ j ∧ j < i + n ∧ q j = true ∧ ∀ k, i ≤ k → k < j → q k = false := by
  induction n generalizing i with
  | zero =>
    simp only [scanFirst]
    constructor
    · intro h
      exact absurd h (by simp)
    · intro ⟨h1, h2, _⟩
      omega
  | succ n ih =>
    simp only [scanFirst]
    by_cases hqi : q i = true
    · rw [if_pos hqi]
      constructor
      · intro h
        have hij : i = j := by
          have := Option.some.inj h
          omega
        subst hij
        exact ⟨le_refl i, by omega, hqi, fun k hk1 hk2 => absurd hk2 (by omega)⟩
      · intro ⟨h1, h2, h3, h4⟩
        by_cases hij : i = j
        · rw [hij]
        · have := h4 i (le_refl i) (by omega)
          rw [hqi] at this
          exact absurd this (by simp)
    · rw [if_neg hqi, ih]
      rw [Bool.not_eq_true] at hqi
      constructor
      · intro ⟨h1, h2, h3, h4⟩
        refine ⟨by omega, by omega, h3, fun k hk1 hk2 => ?_⟩
        by_cases hki : k = i
        · rw [hki, hqi]
        · exact h4 k (by omega) hk2
      · intro ⟨h1, h2, h3, h4⟩
        have hij : i ≠ j := by
          intro he
          rw [he] at hqi
          rw [hqi] at h3
          exact absurd h3 (by simp)
        exact ⟨by omega, by omega, h3, fun k hk1 hk2 => h4 k (by omega) hk2⟩

lemma scanFirst_eq_none_iff {q : Nat → Bool} {i n : Nat} :
    scanFirst q i n = none ↔ ∀ k, i ≤ k → k < i + n → q k = false := by
  induction n generalizing i with
  | zero =>
    simp only [scanFirst]
    constructor
    · intro _ k hk1 hk2
      omega
    · intro _
      trivial
  | succ n ih =>
    simp only [scanFirst]
    by_cases hqi : q i = true
    · rw [if_pos hqi]
      constructor
      · intro h
        exact absurd h (by simp)
      · intro h
        have := h i (le_refl i) (by omega)
        rw [hqi] at this
        exact absurd this (by simp)
    · rw [if_neg hqi, ih]
      rw [Bool.not_eq_true] at hqi
      constructor
      · intro h k hk1 hk2
        by_cases hki : k = i
        · rw [hki, hqi]
        · exact h k (by omega) (by omega)
      · intro h k hk1 hk2
        exact h k (by omega) (by omega)

/-! ### `findFrom` specification -/

lemma findFrom_eq_some_iff {s p : List Char} {i j : Nat} (hp : p ≠ []) :
    findFrom s p i = some j ↔
      i ≤ j ∧ occursAt p s j = true ∧ ∀ k, i ≤ k → k < j → occursAt p s k = false := by
  unfold findFrom
  rw [scanFirst_eq_some_iff]
  constructor
  · intro ⟨h1, _, h3, h4⟩
    exact ⟨h1, h3, h4⟩
  · intro ⟨h1, h3, h4⟩
    have hj := occursAt_le_length hp h3
    have hplen : 0 < p.length := List.length_pos.mpr hp
    exact ⟨h1, by omega, h3, h4⟩

lemma findFrom_eq_none_iff {s p : List Char} {i : Nat} (hp : p ≠ []) :
    findFrom s p i = none ↔ ∀ k, i ≤ k → occursAt p s k = false := by
  unfold findFrom
  rw [scanFirst_eq_none_iff]
  have hplen : 0 < p.length := List.length_pos.mpr hp
  constructor
  · intro h k hk
    by_cases hkw : k < i + (s.length + 1 - i)
    · exact h k hk hkw
    · exact occursAt_eq_false_of_length hp (by omega)
  · intro h k hk _
    exact h k hk

lemma findFrom_shift {s p : List Char} {d i : Nat} (hp : p ≠ []) :
    findFrom s p (d + i) = Option.map (fun j => d + j) (findFrom (s.drop d) p i) := by
  cases h : findFrom (s.drop d) p i with
  | none =>
    rw [Option.map_none']
    rw [findFrom_eq_none_iff hp] at h ⊢
    intro k hk
    have := h (k - d) (by omega)
    rw [occursAt_drop] at this
    rwa [show d + (k - d) = k by omega] at this
  | some j =>
    rw [Option.map_some']
    rw [findFrom_eq_some_iff hp] at h ⊢
    obtain ⟨h1, h2, h3⟩ := h
    rw [occursAt_drop] at h2
    refine ⟨by omega, h2, fun k hk1 hk2 => ?_⟩
    have := h3 (k - d) (by omega) (by omega)
    rw [occursAt_drop] at this
    rwa [show d + (k - d) = k by omega] at this

lemma findFrom_eq_of_none_below {s p : List Char} {i j : Nat} (hp : p ≠ []) (hij : i ≤ j)
    (h : ∀ k, i ≤ k → k < j → occursAt p s k = false) : findFrom s p i = findFrom s p j := by
  cases hj : findFrom s p j with
  | none =>
    rw [findFrom_eq_none_iff hp] at hj ⊢
    intro k hk
    by_cases hkj : k < j
    · exact h k hk hkj
    · exact hj k (by omega)
  | some m =>
    rw [findFrom_eq_some_iff hp] at hj ⊢
    obtain ⟨h1, h2, h3⟩ := hj
    refine ⟨by omega, h2, fun k hk1 hk2 => ?_⟩
    by_cases hkj : k < j
    · exact h k hk1 hkj
    · exact h3 k (by omega) hk2

lemma findFrom_isSome_of_occ {s p : List Char} {i k : Nat} (hp : p ≠ []) (hik : i ≤ k)
    (hocc : occursAt p s k = true) : (findFrom s p i).isSome = true := by
  cases h : findFrom s p i with
  | none =>
    rw [findFrom_eq_none_iff hp] at h
    rw [h k hik] at hocc
    exact absurd hocc (by simp)
  | some j => rfl

/-! ### `rfindStr` specification -/

lemma rfindAux_eq_some_iff {s p : List Char} {i j : Nat} :
    rfindAux s p i = some j ↔
      j ≤ i ∧ occursAt p s j = true ∧ ∀ k, j < k → k ≤ i → occursAt p s k = false := by
  induction i with
  | zero =>
    simp only [rfindAux]
    by_cases h0 : occursAt p s 0 = true
    · rw [if_pos h0]
      constructor
      · intro h
        have : j = 0 := (Option.some.inj h).symm
        subst this
        exact ⟨le_refl 0, h0, fun k hk1 hk2 => by omega⟩
      · intro ⟨h1, _, _⟩
        have : j = 0 := by omega
        rw [this]
    · rw [if_neg h0]
      rw [Bool.not_eq_true] at h0
      constructor
      · intro h
        exact absurd h (by simp)
      · intro ⟨h1, h2, _⟩
        have : j = 0 := by omega
        rw [this] at h2
        rw [h0] at h2
        exact absurd h2 (by simp)
  | succ i ih =>
    simp only [rfindAux]
    by_cases hsi : occursAt p s (i + 1) = true
    · rw [if_pos hsi]
      constructor
      · intro h
        have : j = i + 1 := (Option.some.inj h).symm
        subst this
        exact ⟨le_refl _, hsi, fun k hk1 hk2 => by omega⟩
      · intro ⟨h1, h2, h3⟩
        by_cases hji : j = i + 1
        · rw [hji]
        · have := h3 (i + 1) (by omega) (le_refl _)
          rw [hsi] at this
          exact absurd this (by simp)
    · rw [if_neg hsi, ih]
      rw [Bool.not_eq_true] at hsi
      constructor
      · intro ⟨h1, h2, h3⟩
        refine ⟨by omega, h2, fun k hk1 hk2 => ?_⟩
        by_cases hki : k = i + 1
        · rw [hki, hsi]
        · exact h3 k hk1 (by omega)
      · intro ⟨h1, h2, h3⟩
        have hji : j ≠ i + 1 := by
          intro he
          rw [he] at h2
          rw [hsi] at h2
          exact absurd h2 (by simp)
        exact ⟨by omega, h2, fun k hk1 hk2 => h3 k hk1 (by omega)⟩

lemma rfindAux_eq_none_iff {s p : List Char} {i : Nat} :
    rfindAux s p i = none ↔ ∀ k, k ≤ i → occursAt p s k = false := by
  induction i with
  | zero =>
    simp only [rfindAux]
    by_cases h0 : occursAt p s 0 = true
    · rw [if_pos h0]
      constructor
      · intro h
        exact absurd h (by simp)
      · intro h
        have := h 0 (le_refl 0)
        rw [h0] at this
        exact absurd this (by simp)
    · rw [if_neg h0]
      rw [Bool.not_eq_true] at h0
      constructor
      · intro _ k hk
        have : k = 0 := by omega
        rw [this, h0]
      · intro _
        rfl
  | succ i ih =>
    simp only [rfindAux]
    by_cases hsi : occursAt p s (i + 1) = true
    · rw [if_pos hsi]
      constructor
      · intro h
        exact absurd h (by simp)
      · intro h
        have := h (i + 1) (le_refl _)
        rw [hsi] at this
        exact absurd this (by simp)
    · rw [if_neg hsi, ih]
      rw [Bool.not_eq_true] at hsi
      constructor
      · intro h k hk
        by_cases hki : k = i + 1
        · rw [hki, hsi]
        · exact h k (by omega)
      · intro h k hk
        exact h k (by omega)

lemma rfindStr_eq_some_iff {s p : List Char} {j : Nat} (hp : p ≠ []) :
    rfindStr s p = some j ↔
      occursAt p s j = true ∧ ∀ k, j < k → occursAt p s k = false := by
  unfold rfindStr
  rw [rfindAux_eq_some_iff]
  have hplen : 0 < p.length := List.length_pos.mpr hp
  constructor
  · intro ⟨h1, h2, h3⟩
    refine ⟨h2, fun k hk => ?_⟩
    by_cases hks : k ≤ s.length
    · exact h3 k hk hks
    · exact occursAt_eq_false_of_length hp (by omega)
  · intro ⟨h2, h3⟩
    have := occursAt_le_length hp h2
    exact ⟨by omega, h2, fun k hk1 _ => h3 k hk1⟩

lemma rfindStr_eq_none_iff {s p : List Char} (hp : p ≠ []) :
    rfindStr s p = none ↔ ∀ k, occursAt p s k = false := by
  unfold rfindStr
  rw [rfindAux_eq_none_iff]
  have hplen : 0 < p.length := List.length_pos.mpr hp
  constructor
  · intro h k
    by_cases hks : k ≤ s.length
    · exact h k hks
    · exact occursAt_eq_false_of_length hp (by omega)
  · intro h k _
    exact h k

/-! ### `findCloseFrom` and `regexSearch` specification -/

lemma closeMatchAt_le_length {t : List Char} {c : Nat} (h : closeMatchAt t c = true) :
    c + respClose.length ≤ t.length := by
  unfold closeMatchAt at h
  simp only [Bool.and_eq_true] at h
  obtain ⟨h1, _⟩ := h
  have := occursAt_le_length (by decide) h1
  rwa [length_pyLower] at this

lemma findCloseFrom_eq_some_iff {t : List Char} {i c : Nat} :
    findCloseFrom t i = some c ↔
      i ≤ c ∧ closeMatchAt t c = true ∧ ∀ k, i ≤ k → k < c → closeMatchAt t k = false := by
  unfold findCloseFrom
  rw [scanFirst_eq_some_iff]
  constructor
  · intro ⟨h1, _, h3, h4⟩
    exact ⟨h1, h3, h4⟩
  · intro ⟨h1, h3, h4⟩
    have hle := closeMatchAt_le_length h3
    have hcl : 0 < respClose.length := by decide
    exact ⟨h1, by omega, h3, h4⟩

lemma findCloseFrom_eq_none_iff {t : List Char} {i : Nat} :
    findCloseFrom t i = none ↔ ∀ k, i ≤ k → closeMatchAt t k = false := by
  unfold findCloseFrom
  rw [scanFirst_eq_none_iff]
  constructor
  · intro h k hk
    by_cases hkw : k < i + (t.length + 1 - i)
    · exact h k hk hkw
    · cases hcm : closeMatchAt t k
      · rfl
      · have := closeMatchAt_le_length hcm
        omega
  · intro h k hk _
    exact h k hk

lemma regexSearch_eq_of_zero {t r : List Char} (h : matchGroupAt t 0 = some r) :
    regexSearch t = some r := by
  unfold regexSearch
  simp only [scanFirst, h, Option.isSome_some, if_true]

lemma regexSearch_eq_none {t : List Char} (h : ∀ j, matchGroupAt t j = none) :
    regexSearch t = none := by
  unfold regexSearch
  have hs : scanFirst (fun s => (matchGroupAt t s).isSome) 0 (t.length + 1) = none := by
    rw [scanFirst_eq_none_iff]
    intro k _ _
    rw [h k]
    rfl
  rw [hs]

/-! ### `pyRstrip` and `pyStrip` lemmas -/

lemma dropWhile_sfx (q : Char → Bool) (l : List Char) :
    ∃ m, m ≤ l.length ∧ List.dropWhile q l = l.drop m ∧
      ∀ j c, j < m → l[j]? = some c → q c = true := by
  induction l with
  | nil => exact ⟨0, by simp, rfl, fun j c hj _ => absurd hj (by omega)⟩
  | cons a t ih =>
    by_cases hqa : q a = true
    · obtain ⟨m, hm1, hm2, hm3⟩ := ih
      refine ⟨m + 1, by simpa using Nat.succ_le_succ hm1, ?_, ?_⟩
      · rw [List.dropWhile_cons, if_pos hqa, hm2]
        rfl
      · intro j c hj hg
        cases j with
        | zero =>
          simp only [List.getElem?_cons_zero, Option.some.injEq] at hg
          rw [← hg]
          exact hqa
        | succ j' =>
          apply hm3 j' c (by omega)
          simpa using hg
    · refine ⟨0, by omega, ?_, fun j c hj _ => absurd hj (by omega)⟩
      rw [List.dropWhile_cons, if_neg hqa, List.drop_zero]

lemma pyRstrip_spec (l : List Char) :
    ∃ k, k ≤ l.length ∧ pyRstrip l = l.take k ∧
      ∀ j c, k ≤ j → l[j]? = some c → isPyWs c = true := by
  obtain ⟨m, hm1, hm2, hm3⟩ := dropWhile_sfx isPyWs l.reverse
  rw [List.length_reverse] at hm1
  refine ⟨l.length - m, by omega, ?_, ?_⟩
  · unfold pyRstrip
    rw [hm2, List.drop_reverse, List.reverse_reverse]
  · intro j c hj hg
    have hjl : j < l.length := (List.getElem?_eq_some.mp hg).1
    have hidx : l.length - 1 - (l.length - 1 - j) = j := by omega
    have hrev : l.reverse[l.length - 1 - j]? = l[j]? := by
      rw [List.getElem?_reverse (by omega), hidx]
    exact hm3 (l.length - 1 - j) c (by omega) (hrev.trans hg)

lemma pyStrip_nil_of_ws {l : List Char} (h : ∀ c ∈ l, isPyWs c = true) : pyStrip l = [] := by
  unfold pyStrip pyRstrip
  have h1 : List.dropWhile isPyWs l.reverse = [] :=
    List.dropWhile_eq_nil_iff.mpr (fun x hx => h x (List.mem_reverse.mp hx))
  rw [h1]
  rfl

lemma dropWhile_idem (q : Char → Bool) (l : List Char) :
    List.dropWhile q (List.dropWhile q l) = List.dropWhile q l := by
  induction l with
  | nil => rfl
  | cons a t ih =>
    by_cases hqa : q a = true
    · rw [List.dropWhile_cons, if_pos hqa, ih]
    · rw [List.dropWhile_cons, if_neg hqa, List.dropWhile_cons, if_neg hqa]

lemma dropWhile_eq_self_of_head {q : Char → Bool} {l : List Char} {c : Char}
    (hh : l.head? = some c) (hc : q c = false) : List.dropWhile q l = l := by
  cases l with
  | nil => rfl
  | cons a t =>
    simp only [List.head?_cons, Option.some.injEq] at hh
    rw [List.dropWhile_cons, if_neg (by rw [hh, hc]; simp)]

lemma getLast?_drop_of_ne {L : List Char} {m : Nat} (h : L.drop m ≠ []) :
    (L.drop m).getLast? = L.getLast? := by
  conv_rhs => rw [← List.take_append_drop m L]
  rw [List.getLast?_append]
  cases hx : (L.drop m).getLast? with
  | none => exact absurd (List.getLast?_eq_none_iff.mp hx) h
  | some c => rfl

lemma pyRstrip_getLast {l : List Char} (h : pyRstrip l ≠ []) :
    ∃ c, (pyRstrip l).getLast? = some c ∧ isPyWs c = false := by
  unfold pyRstrip at h ⊢
  have hne : List.dropWhile isPyWs l.reverse ≠ [] := by
    intro he
    rw [he] at h
    exact h rfl
  refine ⟨(List.dropWhile isPyWs l.reverse).head hne, ?_, ?_⟩
  · rw [List.getLast?_reverse, List.head?_eq_head hne]
  · exact List.head_dropWhile_not isPyWs l.reverse hne

lemma pyRstrip_eq_self_of_getLast {X : List Char} {c : Char}
    (hh : X.getLast? = some c) (hc : isPyWs c = false) : pyRstrip X = X := by
  unfold pyRstrip
  rw [dropWhile_eq_self_of_head (by rwa [List.head?_reverse]) hc, List.reverse_reverse]

lemma pyStrip_pyStrip (l : List Char) : pyStrip (pyStrip l) = pyStrip l := by
  by_cases h : pyStrip l = []
  · rw [h]
    rfl
  · have hrne : pyRstrip l ≠ [] := by
      intro he
      apply h
      unfold pyStrip
      rw [he]
      rfl
    obtain ⟨c, hc1, hc2⟩ := pyRstrip_getLast hrne
    obtain ⟨m, _, hm2, _⟩ := dropWhile_sfx isPyWs (pyRstrip l)
    have hdne : (pyRstrip l).drop m ≠ [] := by
      rw [← hm2]
      exact h
    have hlast : (pyStrip l).getLast? = some c := by
      unfold pyStrip
      rw [hm2, getLast?_drop_of_ne hdne, hc1]
    have hfix : pyRstrip (pyStrip l) = pyStrip l := pyRstrip_eq_self_of_getLast hlast hc2
    show List.dropWhile isPyWs (pyRstrip (pyStrip l)) = pyStrip l
    rw [hfix]
    show List.dropWhile isPyWs (List.dropWhile isPyWs (pyRstrip l)) = pyStrip l
    rw [dropWhile_idem]
    rfl

/-! ### Branch lemmas for `extract_xml_tag` -/

lemma ne_nil_of_rfind {s p : List Char} {st : Nat} (hp : p ≠ [])
    (hst : rfindStr (pyLower s) p = some st) : s ≠ [] := by
  intro he
  subst he
  obtain ⟨h1, _⟩ := (rfindStr_eq_some_iff hp).mp hst
  have h2 := occursAt_le_length hp h1
  have h3 : p.length = 0 := by
    have h0 : (pyLower []).length = 0 := rfl
    omega
  exact hp (List.length_eq_zero.mp h3)

lemma extract_of_no_open {s tag : List Char}
    (h : ∀ k, occursAt ('<' :: tag) (pyLower s) k = false) :
    extract_xml_tag s tag = [] := by
  by_cases hs : s = []
  · rw [hs]
    rfl
  · unfold extract_xml_tag
    rw [if_neg hs, (rfindStr_eq_none_iff (by simp)).mpr h]

lemma extract_of_no_gt {s tag : List Char} {st : Nat}
    (hst : rfindStr (pyLower s) ('<' :: tag) = some st)
    (hgt : ∀ k, st ≤ k → occursAt ['>'] s k = false) :
    extract_xml_tag s tag = [] := by
  unfold extract_xml_tag
  rw [if_neg (ne_nil_of_rfind (by simp) hst), hst]
  simp only
  rw [(findFrom_eq_none_iff (by simp)).mpr hgt]

lemma extract_of_no_close {s tag : List Char} {st gt : Nat}
    (hst : rfindStr (pyLower s) ('<' :: tag) = some st)
    (hgt : findFrom s ['>'] st = some gt)
    (hcl : ∀ k, gt + 1 ≤ k → occursAt ('<' :: '/' :: tag) (pyLower s) k = false) :
    extract_xml_tag s tag = pyStrip (s.drop (gt + 1)) := by
  unfold extract_xml_tag
  rw [if_neg (ne_nil_of_rfind (by simp) hst), hst]
  simp only
  rw [hgt]
  simp only
  rw [(findFrom_eq_none_iff (by simp)).mpr hcl]

lemma extract_of_close {s tag : List Char} {st gt cl : Nat}
    (hst : rfindStr (pyLower s) ('<' :: tag) = some st)
    (hgt : findFrom s ['>'] st = some gt)
    (hcl : findFrom (pyLower s) ('<' :: '/' :: tag) (gt + 1) = some cl) :
    extract_xml_tag s tag = pyStrip (slice s (gt + 1) cl) := by
  unfold extract_xml_tag
  rw [if_neg (ne_nil_of_rfind (by simp) hst), hst]
  simp only
  rw [hgt]
  simp only
  rw [hcl]

lemma slice_drop (s : List Char) (d a b : Nat) :
    slice (s.drop d) a b = slice s (d + a) (d + b) := by
  unfold slice
  rw [List.take_drop, List.drop_drop]

/-- `extract_xml_tag` with tag `"response"`, re-expressed over the tail of
    the text that starts at the last `<response` occurrence. -/
lemma extract_xml_localized {s : List Char} {st : Nat}
    (hst : rfindStr (pyLower s) respOpen = some st) :
    extract_xml_tag s "response".data =
      (match findFrom (s.drop st) ['>'] 0 with
      | none => []
      | some g =>
        match findFrom (pyLower (s.drop st)) respClose (g + 1) with
        | none => pyStrip ((s.drop st).drop (g + 1))
        | some cl => pyStrip (slice (s.drop st) (g + 1) cl)) := by
  have hopen : ('<' :: "response".data) = respOpen := by decide
  have hshift := @findFrom_shift s ['>'] st 0 (by simp)
  rw [Nat.add_zero] at hshift
  cases hg : findFrom (s.drop st) ['>'] 0 with
  | none =>
    rw [hg, Option.map_none'] at hshift
    unfold extract_xml_tag
    rw [if_neg (ne_nil_of_rfind (by simp) (hopen ▸ hst)), hopen, hst]
    simp only
    rw [hshift]
  | some g =>
    rw [hg, Option.map_some'] at hshift
    have hclose : ('<' :: '/' :: "response".data) = respClose := by decide
    have hshift2 := @findFrom_shift (pyLower s) respClose st (g + 1) (by decide)
    rw [← pyLower_drop] at hshift2
    unfold extract_xml_tag
    rw [if_neg (ne_nil_of_rfind (by simp) (hopen ▸ hst)), hopen, hst]
    simp only
    rw [hshift]
    simp only
    rw [hclose, show st + g + 1 = st + (g + 1) by omega, hshift2]
    cases hcl : findFrom (pyLower (s.drop st)) respClose (g + 1) with
    | none =>
      rw [Option.map_none', List.drop_drop]
    | some cl =>
      rw [Option.map_some']
      simp only
      rw [slice_drop]

/-! ### Sub-lemmas for the equivalence of the two extraction strategies -/

lemma occursAt_singleton {c : Char} {s : List Char} {i : Nat} :
    occursAt [c] s i = true ↔ s[i]? = some c := by
  rw [occursAt_iff]
  constructor
  · intro h
    have h0 := h 0 (by simp)
    simpa using h0
  · intro h m hm
    have hm0 : m = 0 := by simpa using hm
    subst hm0
    simpa using h

lemma occursAt_singleton_false {c : Char} {s : List Char} {i : Nat} :
    occursAt [c] s i = false ↔ s[i]? ≠ some c := by
  rw [← Bool.not_eq_true, occursAt_singleton]

/-- Appending the synthesized `</response>` cannot create a new `<response`
    occurrence at a positive position. -/
lemma no_open_in_appended {A : List Char}
    (h1 : ∀ j, 1 ≤ j → occursAt respOpen (pyLower A) j = false) :
    ∀ j, 1 ≤ j → occursAt respOpen (pyLower (A ++ respCloseFull)) j = false := by
  intro j hj
  rw [pyLower_append, show pyLower respCloseFull = respCloseFull from by decide]
  have hlA : (pyLower A).length = A.length := length_pyLower A
  by_cases hcase : j + 9 ≤ (pyLower A).length
  · rw [occursAt_append_left (by rw [show respOpen.length = 9 from by decide]; omega)]
    exact h1 j hj
  · by_cases hj2 : (pyLower A).length ≤ j
    · rw [occursAt_append_right hj2]
      have hdec2 : ∀ m, m < 12 → occursAt respOpen respCloseFull m = false := by decide
      by_cases hm : j - (pyLower A).length < 12
      · exact hdec2 _ hm
      · exact occursAt_eq_false_of_length (by decide)
          (by rw [show respOpen.length = 9 from by decide,
                show respCloseFull.length = 11 from by decide]; omega)
    · cases hocc : occursAt respOpen (pyLower A ++ respCloseFull) j
      · rfl
      · exfalso
        have hm : (pyLower A).length - j < respOpen.length := by
          rw [show respOpen.length = 9 from by decide]
          omega
        have hchar := occursAt_get hocc hm
        rw [show j + ((pyLower A).length - j) = (pyLower A).length by omega,
          List.getElem?_append_right (le_refl _), Nat.sub_self] at hchar
        have hlt : respCloseFull[0]? = some '<' := by decide
        rw [hlt] at hchar
        have hdec : ∀ m, 1 ≤ m → m < 9 → respOpen[m]? ≠ some '<' := by decide
        exact hdec ((pyLower A).length - j) (by omega) (by omega) hchar.symm

/-- The first `'>'` of `A` (from position 9) is also the first `'>'` of
    `A ++ "</response>"` from position 9. -/
lemma findFrom_gt_append_of_some {A : List Char} {g : Nat}
    (h : findFrom A ['>'] 9 = some g) :
    findFrom (A ++ respCloseFull) ['>'] 9 = some g := by
  rw [findFrom_eq_some_iff (by simp)] at h ⊢
  obtain ⟨h1, h2, h3⟩ := h
  rw [occursAt_singleton] at h2
  have hg_lt : g < A.length := (List.getElem?_eq_some.mp h2).1
  refine ⟨h1, ?_, fun k hk1 hk2 => ?_⟩
  · rw [occursAt_singleton, List.getElem?_append_left hg_lt]
    exact h2
  · have hk := h3 k hk1 hk2
    rw [occursAt_singleton_false] at hk ⊢
    rwa [List.getElem?_append_left (by omega)]

/-- When `A` has no `'>'` at all (from position 9), the first `'>'` of
    `A ++ "</response>"` from position 9 is the one of the appended tag. -/
lemma findFrom_gt_append_of_none {A : List Char} (hAlen : 9 ≤ A.length)
    (h : findFrom A ['>'] 9 = none) :
    findFrom (A ++ respCloseFull) ['>'] 9 = some (A.length + 10) := by
  rw [findFrom_eq_none_iff (by simp)] at h
  rw [findFrom_eq_some_iff (by simp)]
  refine ⟨by omega, ?_, fun k hk1 hk2 => ?_⟩
  · rw [occursAt_singleton, List.getElem?_append_right (by omega),
      show A.length + 10 - A.length = 10 by omega]
    decide
  · by_cases hkA : k < A.length
    · rw [occursAt_singleton_false, List.getElem?_append_left hkA]
      have hk := h k hk1
      rwa [occursAt_singleton_false] at hk
    · rw [occursAt_singleton_false, List.getElem?_append_right (by omega)]
      have hdec : ∀ m, m < 10 → respCloseFull[m]? ≠ some '>' := by decide
      exact hdec (k - A.length) (by omega)

/-- Unpacking of the `endswith("</response>")` test on the rstripped text:
    a `</response>` occurrence at `q`, everything after it whitespace. -/
lemma endswith_facts {A : List Char}
    (hfix : pyEndsWith (pyLower (pyRstrip A)) respCloseFull = true) :
    ∃ q, q + 11 ≤ A.length ∧
      occursAt respCloseFull (pyLower A) q = true ∧
      (∀ j c, q + 11 ≤ j → A[j]? = some c → isPyWs c = true) := by
  obtain ⟨k, hk1, hk2, hk3⟩ := pyRstrip_spec A
  unfold pyEndsWith at hfix
  simp only [Bool.and_eq_true, decide_eq_true_eq] at hfix
  obtain ⟨hlen, hocc⟩ := hfix
  have hXlen : (pyLower (pyRstrip A)).length = k := by
    rw [length_pyLower, hk2, List.length_take]
    omega
  rw [hXlen] at hlen hocc
  rw [show respCloseFull.length = 11 from by decide] at hlen hocc
  refine ⟨k - 11, by omega, ?_, ?_⟩
  · have hocc2 : occursAt respCloseFull ((pyLower A).take k) (k - 11) = true := by
      rw [← pyLower_take]
      rw [hk2] at hocc
      exact hocc
    exact occursAt_take hocc2
  · intro j c hj hg
    exact hk3 j c (by omega) hg

lemma closeMatchAt_false_of_no_occ {t : List Char} {k : Nat}
    (h : occursAt respClose (pyLower t) k = false) : closeMatchAt t k = false := by
  unfold closeMatchAt
  rw [h, Bool.false_and]

/-- In `A ++ "</response>"`, the first close-part match from `i` is the first
    `</response` occurrence of `A` itself whenever one exists at `i` or later. -/
lemma findCloseFrom_append_of_some {A : List Char} {i cl : Nat}
    (hcl : findFrom (pyLower A) respClose i = some cl) :
    findCloseFrom (A ++ respCloseFull) i = some cl := by
  rw [findFrom_eq_some_iff (by decide)] at hcl
  obtain ⟨h1, h2, h3⟩ := hcl
  have hlenA : (pyLower A).length = A.length := length_pyLower A
  have hcl10 := occursAt_le_length (by decide) h2
  rw [show respClose.length = 10 from by decide] at hcl10
  rw [findCloseFrom_eq_some_iff]
  refine ⟨h1, ?_, fun k hk1 hk2 => ?_⟩
  · unfold closeMatchAt
    rw [Bool.and_eq_true]
    constructor
    · rw [pyLower_append, show pyLower respCloseFull = respCloseFull from by decide,
        occursAt_append_left (by rw [show respClose.length = 10 from by decide]; omega)]
      exact h2
    · apply findFrom_isSome_of_occ (by simp)
        (show cl + respClose.length ≤ A.length + 10 by
          rw [show respClose.length = 10 from by decide]; omega)
      rw [occursAt_singleton, List.getElem?_append_right (by omega),
        show A.length + 10 - A.length = 10 by omega]
      decide
  · apply closeMatchAt_false_of_no_occ
    rw [pyLower_append, show pyLower respCloseFull = respCloseFull from by decide,
      occursAt_append_left (by rw [show respClose.length = 10 from by decide]; omega)]
    exact h3 k hk1 hk2

/-- In `A ++ "</response>"`, when `A` itself has no `</response` occurrence at
    `i` or later, the first close-part match from `i ≤ |A|` is the appended
    tag at position `|A|`. -/
lemma findCloseFrom_append_of_none {A : List Char} {i : Nat} (hi : i ≤ A.length)
    (hcl : findFrom (pyLower A) respClose i = none) :
    findCloseFrom (A ++ respCloseFull) i = some A.length := by
  rw [findFrom_eq_none_iff (by decide)] at hcl
  have hlenA : (pyLower A).length = A.length := length_pyLower A
  rw [findCloseFrom_eq_some_iff]
  refine ⟨hi, ?_, fun k hk1 hk2 => ?_⟩
  · unfold closeMatchAt
    rw [Bool.and_eq_true]
    constructor
    · rw [pyLower_append, show pyLower respCloseFull = respCloseFull from by decide,
        occursAt_append_right (by omega)]
      rw [show A.length - (pyLower A).length = 0 by omega]
      decide
    · apply findFrom_isSome_of_occ (by simp)
        (show A.length + respClose.length ≤ A.length + 10 by
          rw [show respClose.length = 10 from by decide])
      rw [occursAt_singleton, List.getElem?_append_right (by omega),
        show A.length + 10 - A.length = 10 by omega]
      decide
  · apply closeMatchAt_false_of_no_occ
    rw [pyLower_append, show pyLower respCloseFull = respCloseFull from by decide]
    by_cases hk10 : k + 10 ≤ A.length
    · rw [occursAt_append_left (by rw [show respClose.length = 10 from by decide]; omega)]
      exact hcl k hk1
    · cases hocc : occursAt respClose (pyLower A ++ respCloseFull) k
      · rfl
      · exfalso
        have hm : (pyLower A).length - k < respClose.length := by
          rw [show respClose.length = 10 from by decide]
          omega
        have hchar := occursAt_get hocc hm
        rw [show k + ((pyLower A).length - k) = (pyLower A).length by omega,
          List.getElem?_append_right (le_refl _), Nat.sub_self] at hchar
        rw [show respCloseFull[0]? = some '<' from by decide] at hchar
        have hdec : ∀ m, 1 ≤ m → m < 10 → respClose[m]? ≠ some '<' := by decide
        exact hdec ((pyLower A).length - k) (by omega) (by omega) hchar.symm

lemma matchGroupAt_none_of_no_open {t : List Char} {j : Nat}
    (h : occursAt respOpen (pyLower t) j = false) : matchGroupAt t j = none := by
  unfold matchGroupAt
  rw [h]
  rfl

lemma matchGroupAt_eval {t : List Char} {g : Nat}
    (hopen : occursAt respOpen (pyLower t) 0 = true)
    (hgt : findFrom t ['>'] 9 = some g) :
    matchGroupAt t 0 =
      (match findCloseFrom t (g + 1) with
      | none => none
      | some c => some (slice t (g + 1) c)) := by
  unfold matchGroupAt
  rw [hopen]
  simp only [if_true]
  rw [show (0 + respOpen.length) = 9 from by decide, hgt]

/-- In the no-append case (the rstripped text already ends with
    `</response>`), a `</response` occurrence found at `cl ≥ i` is also the
    first close-part match of the regex: the final `'>'` of the trailing
    `</response>` lies at or after `cl + 10`. -/
lemma findCloseFrom_noappend_of_some {A : List Char} {i cl q : Nat}
    (hq11 : q + 11 ≤ A.length)
    (hqocc : occursAt respCloseFull (pyLower A) q = true)
    (hws : ∀ j c, q + 11 ≤ j → A[j]? = some c → isPyWs c = true)
    (hcl : findFrom (pyLower A) respClose i = some cl) :
    findCloseFrom A i = some cl := by
  rw [findFrom_eq_some_iff (by decide)] at hcl
  obtain ⟨h1, h2, h3⟩ := hcl
  have hlenA : (pyLower A).length = A.length := length_pyLower A
  have hcl10 := occursAt_le_length (by decide) h2
  rw [show respClose.length = 10 from by decide] at hcl10
  have hclq : cl ≤ q := by
    by_contra hgt
    push_neg at hgt
    have hhead := occursAt_get h2 (show 0 < respClose.length from by decide)
    rw [Nat.add_zero, show respClose[0]? = some '<' from by decide] at hhead
    by_cases hc11 : q + 11 ≤ cl
    · have hA : A[cl]? = some '<' := (pyLower_at_symbol (by decide)).mp hhead
      have hwsc := hws cl '<' hc11 hA
      exact absurd hwsc (by decide)
    · have hm := occursAt_get hqocc (show cl - q < respCloseFull.length from by
        rw [show respCloseFull.length = 11 from by decide]
        omega)
      rw [show q + (cl - q) = cl by omega, hhead] at hm
      have hdec : ∀ m, 1 ≤ m → m < 11 → respCloseFull[m]? ≠ some '<' := by decide
      exact hdec (cl - q) (by omega) (by omega) hm.symm
  rw [findCloseFrom_eq_some_iff]
  refine ⟨h1, ?_, fun k hk1 hk2 => ?_⟩
  · unfold closeMatchAt
    rw [Bool.and_eq_true]
    refine ⟨h2, ?_⟩
    apply findFrom_isSome_of_occ (by simp)
      (show cl + respClose.length ≤ q + 10 by
        rw [show respClose.length = 10 from by decide]
        omega)
    rw [occursAt_singleton]
    have hgt10 := occursAt_get hqocc (show 10 < respCloseFull.length from by decide)
    rw [show respCloseFull[10]? = some '>' from by decide] at hgt10
    exact (pyLower_at_symbol (by decide)).mp hgt10
  · exact closeMatchAt_false_of_no_occ (h3 k hk1 hk2)

/-- In the no-append case, when no `</response` occurs after the first `'>'`
    (at `g`), that `'>'` is the one of the trailing `</response>` and only
    whitespace follows it. -/
lemma noappend_no_close_ws {A : List Char} {g q : Nat}
    (hq11 : q + 11 ≤ A.length)
    (hqocc : occursAt respCloseFull (pyLower A) q = true)
    (hws : ∀ j c, q + 11 ≤ j → A[j]? = some c → isPyWs c = true)
    (hg : findFrom A ['>'] 9 = some g)
    (hnone : ∀ k, g + 1 ≤ k → occursAt respClose (pyLower A) k = false) :
    pyStrip (A.drop (g + 1)) = [] := by
  have hqclose : occursAt respClose (pyLower A) q = true := by
    rw [occursAt_iff]
    intro m hm
    rw [show respClose.length = 10 from by decide] at hm
    have hx := occursAt_get hqocc (show m < respCloseFull.length from by
      rw [show respCloseFull.length = 11 from by decide]
      omega)
    rw [hx]
    have hdec : ∀ m, m < 10 → respCloseFull[m]? = respClose[m]? := by decide
    exact hdec m hm
  have hqg : q ≤ g := by
    by_contra hlt
    push_neg at hlt
    have := hnone q (by omega)
    rw [hqclose] at this
    exact absurd this (by simp)
  rw [findFrom_eq_some_iff (by simp)] at hg
  obtain ⟨hg1, hg2, hg3⟩ := hg
  rw [occursAt_singleton] at hg2
  have hgt10 := occursAt_get hqocc (show 10 < respCloseFull.length from by decide)
  rw [show respCloseFull[10]? = some '>' from by decide] at hgt10
  have hAgt10 : A[q + 10]? = some '>' := (pyLower_at_symbol (by decide)).mp hgt10
  have hgle : g ≤ q + 10 := by
    by_contra hlt
    push_neg at hlt
    have hk := hg3 (q + 10) (by omega) (by omega)
    rw [occursAt_singleton_false] at hk
    exact hk hAgt10
  have hnotgt : ∀ m, m < 10 → A[q + m]? ≠ some '>' := by
    intro m hm hA
    have hx := occursAt_get hqocc (show m < respCloseFull.length from by
      rw [show respCloseFull.length = 11 from by decide]
      omega)
    have hlow : (pyLower A)[q + m]? = some '>' := (pyLower_at_symbol (by decide)).mpr hA
    rw [hlow] at hx
    have hdec : ∀ m, m < 10 → respCloseFull[m]? ≠ some '>' := by decide
    exact hdec m hm hx.symm
  have hgq10 : g = q + 10 := by
    by_contra hne
    exact hnotgt (g - q) (by omega) (by rw [show q + (g - q) = g by omega]; exact hg2)
  subst hgq10
  apply pyStrip_nil_of_ws
  intro c hc
  rw [List.mem_iff_getElem?] at hc
  obtain ⟨n, hn⟩ := hc
  rw [List.getElem?_drop] at hn
  exact hws (q + 10 + 1 + n) c (by omega) hn

lemma slice_append_of_le {a x : List Char} {i b : Nat} (h : b ≤ a.length) :
    slice (a ++ x) i b = slice a i b := by
  unfold slice
  rw [List.take_append_eq_append_take, show b - a.length = 0 by omega, List.take_zero,
    List.append_nil]

lemma slice_append_len {a x : List Char} {i : Nat} :
    slice (a ++ x) i a.length = a.drop i := by
  unfold slice
  rw [List.take_left]

/-- Core equivalence: on the tail `A` that starts at the last `<response`
    occurrence, the regex-with-synthesized-close strategy of
    `extract_response_text` computes exactly what the index-arithmetic
    strategy of `extract_xml_tag` computes. -/
lemma core_equiv {A : List Char}
    (h0 : occursAt respOpen (pyLower A) 0 = true)
    (h1 : ∀ j, 1 ≤ j → occursAt respOpen (pyLower A) j = false) :
    (match regexSearch (respFix A) with
      | none => []
      | some grp => pyStrip grp) =
    (match findFrom A ['>'] 0 with
      | none => []
      | some g =>
        match findFrom (pyLower A) respClose (g + 1) with
        | none => pyStrip (A.drop (g + 1))
        | some cl => pyStrip (slice A (g + 1) cl)) := by
  have hAlen : 9 ≤ A.length := by
    have h9 := occursAt_le_length (by decide) h0
    rw [length_pyLower, show respOpen.length = 9 from by decide] at h9
    omega
  have hfirst9 : ∀ k, k < 9 → occursAt ['>'] A k = false := by
    intro k hk
    rw [occursAt_singleton_false]
    intro hA
    have hlow : (pyLower A)[k]? = some '>' := (pyLower_at_symbol (by decide)).mpr hA
    have h3 := occursAt_get h0 (show k < respOpen.length from by
      rw [show respOpen.length = 9 from by decide]
      omega)
    rw [Nat.zero_add, hlow] at h3
    have hdec : ∀ m, m < 9 → respOpen[m]? ≠ some '>' := by decide
    exact hdec k hk h3.symm
  have hshift9 : findFrom A ['>'] 0 = findFrom A ['>'] 9 :=
    findFrom_eq_of_none_below (by simp) (by omega) (fun k _ hk => hfirst9 k hk)
  unfold respFix
  by_cases hfix : pyEndsWith (pyLower (pyRstrip A)) respCloseFull = true
  · rw [if_pos hfix]
    obtain ⟨q, hq11, hqocc, hws⟩ := endswith_facts hfix
    have hgt10 := occursAt_get hqocc (show 10 < respCloseFull.length from by decide)
    rw [show respCloseFull[10]? = some '>' from by decide] at hgt10
    have hAgt10 : A[q + 10]? = some '>' := (pyLower_at_symbol (by decide)).mp hgt10
    have hsome : (findFrom A ['>'] 9).isSome = true := by
      apply findFrom_isSome_of_occ (by simp) (show 9 ≤ q + 10 by omega)
      rw [occursAt_singleton]
      exact hAgt10
    obtain ⟨g, hg⟩ := Option.isSome_iff_exists.mp hsome
    rw [hshift9, hg]
    simp only
    cases hcl : findFrom (pyLower A) respClose (g + 1) with
    | some cl =>
      have hfc := findCloseFrom_noappend_of_some hq11 hqocc hws hcl
      have hmg : matchGroupAt A 0 = some (slice A (g + 1) cl) := by
        rw [matchGroupAt_eval h0 hg, hfc]
      rw [regexSearch_eq_of_zero hmg]
    | none =>
      have hnone : ∀ k, g + 1 ≤ k → occursAt respClose (pyLower A) k = false :=
        (findFrom_eq_none_iff (by decide)).mp hcl
      have hstrip := noappend_no_close_ws hq11 hqocc hws hg hnone
      have hfc : findCloseFrom A (g + 1) = none := by
        rw [findCloseFrom_eq_none_iff]
        intro k hk
        exact closeMatchAt_false_of_no_occ (hnone k hk)
      have hmg : matchGroupAt A 0 = none := by
        rw [matchGroupAt_eval h0 hg, hfc]
      have hrs : regexSearch A = none := by
        apply regexSearch_eq_none
        intro j
        cases j with
        | zero => exact hmg
        | succ j' => exact matchGroupAt_none_of_no_open (h1 (j' + 1) (by omega))
      rw [hrs, hstrip]
  · rw [if_neg hfix]
    have hopen2 : occursAt respOpen (pyLower (A ++ respCloseFull)) 0 = true := by
      rw [pyLower_append, show pyLower respCloseFull = respCloseFull from by decide,
        occursAt_append_left (by
          rw [length_pyLower, show respOpen.length = 9 from by decide]
          omega)]
      exact h0
    cases hg : findFrom A ['>'] 9 with
    | some g =>
      have hg2 := findFrom_gt_append_of_some hg
      rw [hshift9, hg]
      simp only
      obtain ⟨_, hgo, _⟩ := (findFrom_eq_some_iff (by simp)).mp hg
      rw [occursAt_singleton] at hgo
      have hglt : g < A.length := (List.getElem?_eq_some.mp hgo).1
      cases hcl : findFrom (pyLower A) respClose (g + 1) with
      | some cl =>
        have hfc := findCloseFrom_append_of_some hcl
        have hmg : matchGroupAt (A ++ respCloseFull) 0 =
            some (slice (A ++ respCloseFull) (g + 1) cl) := by
          rw [matchGroupAt_eval hopen2 hg2, hfc]
        rw [regexSearch_eq_of_zero hmg]
        have hclocc := (findFrom_eq_some_iff (by decide)).mp hcl
        have hcl10 := occursAt_le_length (by decide) hclocc.2.1
        rw [length_pyLower, show respClose.length = 10 from by decide] at hcl10
        rw [slice_append_of_le (by omega)]
      | none =>
        have hfc := findCloseFrom_append_of_none (show g + 1 ≤ A.length by omega) hcl
        have hmg : matchGroupAt (A ++ respCloseFull) 0 =
            some (slice (A ++ respCloseFull) (g + 1) A.length) := by
          rw [matchGroupAt_eval hopen2 hg2, hfc]
        rw [regexSearch_eq_of_zero hmg, slice_append_len]
    | none =>
      rw [hshift9, hg]
      have hg2 := findFrom_gt_append_of_none hAlen hg
      have hfc : findCloseFrom (A ++ respCloseFull) (A.length + 10 + 1) = none := by
        rw [findCloseFrom_eq_none_iff]
        intro k hk
        apply closeMatchAt_false_of_no_occ
        apply occursAt_eq_false_of_length (by decide)
        rw [length_pyLower, List.length_append,
          show respCloseFull.length = 11 from by decide,
          show respClose.length = 10 from by decide]
        omega
      have hmg : matchGroupAt (A ++ respCloseFull) 0 = none := by
        rw [matchGroupAt_eval hopen2 hg2, hfc]
      have hrs : regexSearch (A ++ respCloseFull) = none := by
        apply regexSearch_eq_none
        intro j
        cases j with
        | zero => exact hmg
        | succ j' =>
          exact matchGroupAt_none_of_no_open (no_open_in_appended h1 (j' + 1) (by omega))
      rw [hrs]

lemma extract_response_localized {s : List Char} {st : Nat}
    (hst : rfindStr (pyLower s) respOpen = some st) :
    extract_response_text s =
      (match regexSearch (respFix (s.drop st)) with
      | none => []
      | some grp => pyStrip grp) := by
  unfold extract_response_text
  rw [if_neg (ne_nil_of_rfind (by decide) hst), hst]

/-- The two extraction strategies agree on every input: `extract_response_text`
    is `extract_xml_tag` at tag `"response"`. -/
lemma extract_equiv (s : List Char) :
    extract_response_text s = extract_xml_tag s "response".data := by
  by_cases hs : s = []
  · rw [hs]
    rfl
  · cases hst : rfindStr (pyLower s) respOpen with
    | none =>
      have hopen : ('<' :: "response".data) = respOpen := by decide
      unfold extract_response_text extract_xml_tag
      rw [if_neg hs, if_neg hs, hopen, hst]
    | some st =>
      rw [extract_response_localized hst, extract_xml_localized hst]
      obtain ⟨hocc, hmax⟩ := (rfindStr_eq_some_iff (by decide)).mp hst
      apply core_equiv
      · rw [pyLower_drop, occursAt_drop, Nat.add_zero]
        exact hocc
      · intro j hj
        rw [pyLower_drop, occursAt_drop]
        exact hmax (st + j) (by omega)

/-! ### Shape lemma: a complete last instance `x ++ <tag> ++ b ++ </tag> ++ c` -/

lemma occursAt_self {p z : List Char} : occursAt p (p ++ z) 0 = true := by
  unfold occursAt
  rw [List.drop_zero, List.take_append_eq_append_take, List.take_length, Nat.sub_self,
    List.take_zero, List.append_nil]
  exact beq_self_eq_true p

lemma no_symbol_of_not_mem {l : List Char} {c₀ : Char} (h0 : c₀.toNat < 65) (h : c₀ ∉ l)
    (m : Nat) : (pyLower l)[m]? ≠ some c₀ := by
  intro hm
  exact h (List.getElem?_mem ((pyLower_at_symbol h0).mp hm))

lemma open_token_no_lt {tag : List Char} (htaglc : ∀ ch ∈ tag, ch.isLower = true) :
    ∀ m, 1 ≤ m → ('<' :: (tag ++ ['>']))[m]? ≠ some '<' := by
  intro m hm hx
  cases m with
  | zero => omega
  | succ m' =>
    rw [List.getElem?_cons_succ] at hx
    by_cases hm' : m' < tag.length
    · rw [List.getElem?_append_left hm'] at hx
      have hmem := List.getElem?_mem hx
      exact absurd (htaglc '<' hmem) (by decide)
    · rw [List.getElem?_append_right (by omega)] at hx
      by_cases hm'' : m' = tag.length
      · rw [hm'', Nat.sub_self] at hx
        exact absurd (Option.some.inj hx) (by decide)
      · rw [List.getElem?_eq_none (by simp; omega)] at hx
        exact absurd hx (by simp)

lemma open_token_no_gt {tag : List Char} (htaglc : ∀ ch ∈ tag, ch.isLower = true) :
    ∀ m, m < tag.length + 1 → ('<' :: (tag ++ ['>']))[m]? ≠ some '>' := by
  intro m hm hx
  cases m with
  | zero =>
    rw [List.getElem?_cons_zero] at hx
    exact absurd (Option.some.inj hx) (by decide)
  | succ m' =>
    rw [List.getElem?_cons_succ, List.getElem?_append_left (by omega)] at hx
    have hmem := List.getElem?_mem hx
    exact absurd (htaglc '>' hmem) (by decide)

lemma close_token_no_lt {tag : List Char} (htaglc : ∀ ch ∈ tag, ch.isLower = true) :
    ∀ m, 1 ≤ m → ('<' :: '/' :: (tag ++ ['>']))[m]? ≠ some '<' := by
  intro m hm hx
  cases m with
  | zero => omega
  | succ m' =>
    rw [List.getElem?_cons_succ] at hx
    cases m' with
    | zero =>
      rw [List.getElem?_cons_zero] at hx
      exact absurd (Option.some.inj hx) (by decide)
    | succ m'' =>
      rw [List.getElem?_cons_succ] at hx
      by_cases hm' : m'' < tag.length
      · rw [List.getElem?_append_left hm'] at hx
        have hmem := List.getElem?_mem hx
        exact absurd (htaglc '<' hmem) (by decide)
      · rw [List.getElem?_append_right (by omega)] at hx
        by_cases hm'' : m'' = tag.length
        · rw [hm'', Nat.sub_self] at hx
          exact absurd (Option.some.inj hx) (by decide)
        · rw [List.getElem?_eq_none (by simp; omega)] at hx
          exact absurd hx (by simp)

lemma slice_middle {u b rest : List Char} :
    slice (u ++ (b ++ rest)) u.length (u.length + b.length) = b := by
  unfold slice
  rw [List.take_append, List.drop_left, List.take_left]

lemma shape_low {x otok b ctok c : List Char} :
    pyLower (x ++ (otok ++ (b ++ (ctok ++ c)))) =
      pyLower x ++ (pyLower otok ++ (pyLower b ++ (pyLower ctok ++ pyLower c))) := by
  rw [pyLower_append, pyLower_append, pyLower_append, pyLower_append]

/-- In `x ++ <tag…> ++ b ++ </tag…> ++ c` with `'<'`-free `b` and `c`, no
    occurrence of the opening token `<tag` starts after position `|x|`. -/
lemma shape_no_open_after {x otok b ctok c tag : List Char}
    (htagne : tag ≠ [])
    (htaglc : ∀ ch ∈ tag, ch.isLower = true)
    (hotok : pyLower otok = '<' :: (tag ++ ['>']))
    (hctok : pyLower ctok = '<' :: '/' :: (tag ++ ['>']))
    (hb : '<' ∉ b) (hc : '<' ∉ c) :
    ∀ k, x.length < k →
      occursAt ('<' :: tag) (pyLower (x ++ (otok ++ (b ++ (ctok ++ c))))) k = false := by
  intro k hk
  have hpo_len : otok.length = tag.length + 2 := by
    have h := congrArg List.length hotok
    rw [length_pyLower] at h
    simp at h
    omega
  have hct_len : ctok.length = tag.length + 3 := by
    have h := congrArg List.length hctok
    rw [length_pyLower] at h
    simp at h
    omega
  have hT : 0 < tag.length := List.length_pos.mpr htagne
  rw [shape_low]
  cases hocc : occursAt ('<' :: tag)
      (pyLower x ++ (pyLower otok ++ (pyLower b ++ (pyLower ctok ++ pyLower c)))) k
  · rfl
  exfalso
  have hx := occursAt_get hocc (show 0 < ('<' :: tag).length by simp)
  rw [Nat.add_zero, List.getElem?_cons_zero] at hx
  rw [List.getElem?_append_right (by rw [length_pyLower]; omega)] at hx
  simp only [length_pyLower] at hx
  by_cases hA : k - x.length < otok.length
  · rw [List.getElem?_append_left (by rw [length_pyLower]; omega), hotok] at hx
    exact open_token_no_lt htaglc (k - x.length) (by omega) hx
  · rw [List.getElem?_append_right (by rw [length_pyLower]; omega)] at hx
    simp only [length_pyLower] at hx
    by_cases hB : k - x.length - otok.length < b.length
    · rw [List.getElem?_append_left (by rw [length_pyLower]; omega)] at hx
      exact no_symbol_of_not_mem (by decide) hb _ hx
    · rw [List.getElem?_append_right (by rw [length_pyLower]; omega)] at hx
      simp only [length_pyLower] at hx
      by_cases hC : k - x.length - otok.length - b.length < ctok.length
      · by_cases hC0 : k = x.length + otok.length + b.length
        · have hsec := occursAt_get hocc (show 1 < ('<' :: tag).length by simp; omega)
          rw [show (('<' :: tag)[1]? : Option Char) = tag[0]? from by simp] at hsec
          rw [List.getElem?_append_right (by rw [length_pyLower]; omega)] at hsec
          simp only [length_pyLower] at hsec
          rw [List.getElem?_append_right (by rw [length_pyLower]; omega)] at hsec
          simp only [length_pyLower] at hsec
          rw [List.getElem?_append_right (by rw [length_pyLower]; omega)] at hsec
          simp only [length_pyLower] at hsec
          rw [List.getElem?_append_left (by rw [length_pyLower]; omega), hctok] at hsec
          rw [show k + 1 - x.length - otok.length - b.length = 1 by omega] at hsec
          rw [show (('<' :: '/' :: (tag ++ ['>']))[1]? : Option Char) = some '/' from by simp]
            at hsec
          have hmem := List.getElem?_mem hsec.symm
          exact absurd (htaglc '/' hmem) (by decide)
        · rw [List.getElem?_append_left (by rw [length_pyLower]; omega), hctok] at hx
          exact close_token_no_lt htaglc _ (by omega) hx
      · rw [List.getElem?_append_right (by rw [length_pyLower]; omega)] at hx
        exact no_symbol_of_not_mem (by decide) hc _ hx

/-- Master shape lemma: on a text whose last opening token starts the
    complete instance `otok ++ b ++ ctok` (with `otok`, `ctok` lowering to
    `<tag>` and `</tag>`), `extract_xml_tag` returns `b` stripped. -/
lemma extract_shape {x otok b ctok c tag : List Char}
    (htagne : tag ≠ [])
    (htaglc : ∀ ch ∈ tag, ch.isLower = true)
    (hotok : pyLower otok = '<' :: (tag ++ ['>']))
    (hctok : pyLower ctok = '<' :: '/' :: (tag ++ ['>']))
    (hb : '<' ∉ b) (hc : '<' ∉ c) :
    extract_xml_tag (x ++ (otok ++ (b ++ (ctok ++ c)))) tag = pyStrip b := by
  have hpo_len : otok.length = tag.length + 2 := by
    have h := congrArg List.length hotok
    rw [length_pyLower] at h
    simp at h
    omega
  have hct_len : ctok.length = tag.length + 3 := by
    have h := congrArg List.length hctok
    rw [length_pyLower] at h
    simp at h
    omega
  have hT : 0 < tag.length := List.length_pos.mpr htagne
  have hst : rfindStr (pyLower (x ++ (otok ++ (b ++ (ctok ++ c))))) ('<' :: tag)
      = some x.length := by
    rw [rfindStr_eq_some_iff (by simp)]
    constructor
    · rw [shape_low, occursAt_append_right (length_pyLower x).le]
      rw [length_pyLower, Nat.sub_self, hotok]
      rw [show ('<' :: (tag ++ ['>'])) ++ (pyLower b ++ (pyLower ctok ++ pyLower c))
          = ('<' :: tag) ++ ('>' :: (pyLower b ++ (pyLower ctok ++ pyLower c))) from by simp]
      exact occursAt_self
    · intro k hk
      exact shape_no_open_after htagne htaglc hotok hctok hb hc k hk
  have hgt : findFrom (x ++ (otok ++ (b ++ (ctok ++ c)))) ['>'] x.length
      = some (x.length + tag.length + 1) := by
    rw [findFrom_eq_some_iff (by simp)]
    refine ⟨by omega, ?_, ?_⟩
    · rw [occursAt_singleton]
      rw [List.getElem?_append_right (show x.length ≤ x.length + tag.length + 1 by omega),
        show x.length + tag.length + 1 - x.length = tag.length + 1 by omega,
        List.getElem?_append_left (show tag.length + 1 < otok.length by omega)]
      have hlowgt : (pyLower otok)[tag.length + 1]? = some '>' := by
        rw [hotok, List.getElem?_cons_succ, List.getElem?_append_right (le_refl _),
          Nat.sub_self]
        simp
      exact (pyLower_at_symbol (by decide)).mp hlowgt
    · intro k hk1 hk2
      rw [occursAt_singleton_false]
      intro hkgt
      rw [List.getElem?_append_right (by omega),
        List.getElem?_append_left (show k - x.length < otok.length by omega)] at hkgt
      have hlow : (pyLower otok)[k - x.length]? = some '>' :=
        (pyLower_at_symbol (by decide)).mpr hkgt
      rw [hotok] at hlow
      exact open_token_no_gt htaglc (k - x.length) (by omega) hlow
  have hcl : findFrom (pyLower (x ++ (otok ++ (b ++ (ctok ++ c))))) ('<' :: '/' :: tag)
      (x.length + tag.length + 1 + 1) = some (x.length + otok.length + b.length) := by
    rw [findFrom_eq_some_iff (by simp)]
    refine ⟨by omega, ?_, ?_⟩
    · rw [shape_low, occursAt_append_right (by rw [length_pyLower]; omega)]
      rw [length_pyLower,
        show x.length + otok.length + b.length - x.length = otok.length + b.length by omega]
      rw [occursAt_append_right (by rw [length_pyLower]; omega)]
      rw [length_pyLower,
        show otok.length + b.length - otok.length = b.length by omega]
      rw [occursAt_append_right (length_pyLower b).le]
      rw [length_pyLower, Nat.sub_self, hctok]
      rw [show ('<' :: '/' :: (tag ++ ['>'])) ++ pyLower c
          = ('<' :: '/' :: tag) ++ ('>' :: pyLower c) from by simp]
      exact occursAt_self
    · intro k hk1 hk2
      cases hkocc : occursAt ('<' :: '/' :: tag)
          (pyLower (x ++ (otok ++ (b ++ (ctok ++ c))))) k
      · rfl
      exfalso
      have hx := occursAt_get hkocc (show 0 < ('<' :: '/' :: tag).length by simp)
      rw [Nat.add_zero, List.getElem?_cons_zero, shape_low] at hx
      rw [List.getElem?_append_right (by rw [length_pyLower]; omega)] at hx
      simp only [length_pyLower] at hx
      rw [List.getElem?_append_right (by rw [length_pyLower]; omega)] at hx
      simp only [length_pyLower] at hx
      rw [List.getElem?_append_left (by rw [length_pyLower]; omega)] at hx
      exact no_symbol_of_not_mem (by decide) hb _ hx
  rw [extract_of_close hst hgt hcl]
  have hregroup : x ++ (otok ++ (b ++ (ctok ++ c))) = (x ++ otok) ++ (b ++ (ctok ++ c)) :=
    (List.append_assoc x otok (b ++ (ctok ++ c))).symm
  rw [hregroup,
    show x.length + tag.length + 1 + 1 = (x ++ otok).length from by
      rw [List.length_append]; omega,
    show x.length + otok.length + b.length = (x ++ otok).length + b.length from by
      rw [List.length_append],
    slice_middle]

/-! ### Claim-support helpers -/

lemma pyLower_tag_fix {tag : List Char} (htaglc : ∀ ch ∈ tag, ch.isLower = true) :
    List.map Char.toLower tag = tag :=
  calc List.map Char.toLower tag
      = List.map id tag :=
        List.map_congr_left (fun a ha => toLower_eq_self_of_isLower (htaglc a ha))
    _ = tag := List.map_id tag

lemma pyLower_open_token {tag : List Char} (htaglc : ∀ ch ∈ tag, ch.isLower = true) :
    pyLower ('<' :: (tag ++ ['>'])) = '<' :: (tag ++ ['>']) := by
  unfold pyLower
  rw [List.map_cons, List.map_append, pyLower_tag_fix htaglc]
  rfl

lemma pyLower_close_token {tag : List Char} (htaglc : ∀ ch ∈ tag, ch.isLower = true) :
    pyLower ('<' :: '/' :: (tag ++ ['>'])) = '<' :: '/' :: (tag ++ ['>']) := by
  unfold pyLower
  rw [List.map_cons, List.map_cons, List.map_append, pyLower_tag_fix htaglc]
  rfl

lemma slice_to_end (s : List Char) (a : Nat) : slice s a s.length = s.drop a := by
  unfold slice
  rw [List.take_length]

/-- The missing-close branch of `extract_xml_tag`, driven by occurrence
    hypotheses: last opening token at `st`, first `'>'` after it at `gt`,
    no closing token past the `'>'`. -/
lemma extract_no_close_semantic {s tag : List Char} {st gt : Nat}
    (hst_occ : occursAt ('<' :: tag) (pyLower s) st = true)
    (hst_max : ∀ k, st < k → occursAt ('<' :: tag) (pyLower s) k = false)
    (hgt_occ : occursAt ['>'] s gt = true)
    (hgt_ge : st ≤ gt)
    (hgt_min : ∀ k, st ≤ k → k < gt → occursAt ['>'] s k = false)
    (hnoclose : ∀ k, gt + 1 ≤ k → occursAt ('<' :: '/' :: tag) (pyLower s) k = false) :
    extract_xml_tag s tag = pyStrip (s.drop (gt + 1)) := by
  apply extract_of_no_close
  · rw [rfindStr_eq_some_iff (by simp)]
    exact ⟨hst_occ, hst_max⟩
  · rw [findFrom_eq_some_iff (by simp)]
    exact ⟨hgt_ge, hgt_occ, hgt_min⟩
  · exact hnoclose

/-- Every `extract_xml_tag` result is the empty string or a stripped
    contiguous slice of the input. -/
lemma extract_xml_dichotomy (s tag : List Char) :
    extract_xml_tag s tag = [] ∨ ∃ i j, extract_xml_tag s tag = pyStrip (slice s i j) := by
  by_cases hs : s = []
  · left
    rw [hs]
    rfl
  · cases hst : rfindStr (pyLower s) ('<' :: tag) with
    | none =>
      left
      unfold extract_xml_tag
      rw [if_neg hs, hst]
    | some st =>
      cases hgt : findFrom s ['>'] st with
      | none =>
        left
        unfold extract_xml_tag
        rw [if_neg hs, hst]
        simp only
        rw [hgt]
      | some gt =>
        cases hcl : findFrom (pyLower s) ('<' :: '/' :: tag) (gt + 1) with
        | none =>
          right
          refine ⟨gt + 1, s.length, ?_⟩
          rw [slice_to_end]
          unfold extract_xml_tag
          rw [if_neg hs, hst]
          simp only
          rw [hgt]
          simp only
          rw [hcl]
        | some cl =>
          right
          exact ⟨gt + 1, cl, extract_of_close hst hgt hcl⟩

/-- The missing-close branch with decidable (bounded) occurrence premises. -/
lemma extract_no_close_bounded (s tag : List Char) (st gt : Nat)
    (h1 : occursAt ('<' :: tag) (pyLower s) st = true)
    (h2 : ∀ k < s.length + 1, st < k → occursAt ('<' :: tag) (pyLower s) k = false)
    (h3 : occursAt ['>'] s gt = true)
    (h4 : st ≤ gt)
    (h5 : ∀ k < gt, st ≤ k → occursAt ['>'] s k = false)
    (h6 : ∀ k < s.length + 1, gt + 1 ≤ k →
      occursAt ('<' :: '/' :: tag) (pyLower s) k = false) :
    extract_xml_tag s tag = pyStrip (s.drop (gt + 1)) := by
  refine extract_no_close_semantic h1 (fun k hk => ?_) h3 h4
    (fun k hk1 hk2 => h5 k hk2 hk1) (fun k hk => ?_)
  · by_cases hks : k ≤ s.length
    · exact h2 k (by omega) hk
    · refine occursAt_eq_false_of_length (by simp) ?_
      rw [length_pyLower]
      simp only [List.length_cons]
      omega
  · by_cases hks : k ≤ s.length
    · exact h6 k (by omega) hk
    · refine occursAt_eq_false_of_length (by simp) ?_
      rw [length_pyLower]
      simp only [List.length_cons]
      omega

/-! ### Claim theorems -/

/-- C1: on a text `x ++ <tag> ++ b ++ </tag> ++ c` whose displayed complete
    instance is the last one (no `'<'` appears in `b` or `c`, so no later
    opening token exists), `extract_xml_tag` returns the content of that last
    instance, trimmed — whatever earlier instances `x` contains. -/
theorem claim_C1_last_instance_wins (x b c tag : List Char)
    (htagne : tag ≠ []) (htaglc : ∀ ch ∈ tag, ch.isLower = true)
    (hb : '<' ∉ b) (hc : '<' ∉ c) :
    extract_xml_tag
      (x ++ (('<' :: (tag ++ ['>'])) ++ (b ++ (('<' :: '/' :: (tag ++ ['>'])) ++ c)))) tag
      = pyStrip b :=
  extract_shape htagne htaglc (pyLower_open_token htaglc) (pyLower_close_token htaglc) hb hc

theorem claim_C1_witness :
    extract_xml_tag "<a>first</a> ... <a>second</a>".data "a".data = "second".data := by
  have h := claim_C1_last_instance_wins "<a>first</a> ... ".data "second".data [] "a".data
    (by decide) (by decide) (by decide) (by decide)
  rw [show "<a>first</a> ... ".data ++ (('<' :: ("a".data ++ ['>'])) ++
      ("second".data ++ (('<' :: '/' :: ("a".data ++ ['>'])) ++ ([] : List Char))))
      = "<a>first</a> ... <a>second</a>".data from by decide] at h
  rw [h]
  decide

/-- C2: when the last opening token (at `st`) is followed by a `'>'` (first
    one at `gt`) but no closing token occurs anywhere after that `'>'`,
    `extract_xml_tag` returns everything after the `'>'` to the end of the
    string, trimmed. -/
theorem claim_C2_missing_close_takes_rest (s tag : List Char) (st gt : Nat)
    (h1 : occursAt ('<' :: tag) (pyLower s) st = true)
    (h2 : ∀ k < s.length + 1, st < k → occursAt ('<' :: tag) (pyLower s) k = false)
    (h3 : occursAt ['>'] s gt = true)
    (h4 : st ≤ gt)
    (h5 : ∀ k < gt, st ≤ k → occursAt ['>'] s k = false)
    (h6 : ∀ k < s.length + 1, gt + 1 ≤ k →
      occursAt ('<' :: '/' :: tag) (pyLower s) k = false) :
    extract_xml_tag s tag = pyStrip (s.drop (gt + 1)) :=
  extract_no_close_bounded s tag st gt h1 h2 h3 h4 h5 h6

theorem claim_C2_witness :
    extract_xml_tag "<a>truncated text with no close".data "a".data
      = "truncated text with no close".data := by
  have h := claim_C2_missing_close_takes_rest "<a>truncated text with no close".data
    "a".data 0 2 (by decide) (by decide) (by decide) (by decide) (by decide) (by decide)
  rw [h]
  decide

/-- C3: when the last `<response` occurrence (at `st`) opens a tag (first
    `'>'` at `gt`) that is never closed, `extract_response_text` still
    recovers the tag body — everything after the `'>'`, trimmed — thanks to
    the synthesized closing token. -/
theorem claim_C3_synthesized_close_recovers (s : List Char) (st gt : Nat)
    (h1 : occursAt respOpen (pyLower s) st = true)
    (h2 : ∀ k < s.length + 1, st < k → occursAt respOpen (pyLower s) k = false)
    (h3 : occursAt ['>'] s gt = true)
    (h4 : st ≤ gt)
    (h5 : ∀ k < gt, st ≤ k → occursAt ['>'] s k = false)
    (h6 : ∀ k < s.length + 1, gt + 1 ≤ k → occursAt respClose (pyLower s) k = false) :
    extract_response_text s = pyStrip (s.drop (gt + 1)) := by
  rw [extract_equiv s]
  exact extract_no_close_bounded s "response".data st gt h1 h2 h3 h4 h5 h6

theorem claim_C3_witness :
    extract_response_text "<response>hi".data = "hi".data := by
  have h := claim_C3_synthesized_close_recovers "<response>hi".data 0 9
    (by decide) (by decide) (by decide) (by decide) (by decide) (by decide)
  rw [h]
  decide

/-- C4: a text (the empty string included) with no occurrence of the opening
    token yields the empty string from `extract_xml_tag`, and likewise
    `extract_response_text` yields the empty string when no `<response`
    occurs; absence is never an error. -/
theorem claim_C4_absent_tag_empty (s tag : List Char)
    (h : ∀ k < s.length + 1, occursAt ('<' :: tag) (pyLower s) k = false) :
    extract_xml_tag s tag = [] ∧
      (tag = "response".data → extract_response_text s = []) := by
  have hall : ∀ k, occursAt ('<' :: tag) (pyLower s) k = false := by
    intro k
    by_cases hks : k ≤ s.length
    · exact h k (by omega)
    · refine occursAt_eq_false_of_length (by simp) ?_
      rw [length_pyLower]
      simp only [List.length_cons]
      omega
  refine ⟨extract_of_no_open hall, fun htag => ?_⟩
  subst htag
  rw [extract_equiv s]
  exact extract_of_no_open hall

theorem claim_C4_witness :
    extract_xml_tag "hello".data "response".data = [] ∧
      extract_response_text "hello".data = [] := by
  have h := claim_C4_absent_tag_empty "hello".data "response".data (by decide)
  exact ⟨h.1, h.2 rfl⟩

/-- C5: both extraction functions are total on the embedding and every
    result is either the empty string or a whitespace-stripped contiguous
    slice of the input; failure to find a tag is only ever reported as the
    empty string, never as an error value. -/
theorem claim_C5_total_result_shape (s tag : List Char) :
    (extract_xml_tag s tag = [] ∨
      ∃ i j, extract_xml_tag s tag = pyStrip (slice s i j)) ∧
    (extract_response_text s = [] ∨
      ∃ i j, extract_response_text s = pyStrip (slice s i j)) := by
  refine ⟨extract_xml_dichotomy s tag, ?_⟩
  rw [extract_equiv s]
  exact extract_xml_dichotomy s "response".data

/-- C6: tag matching is case-insensitive — replacing the opening and closing
    tokens by any variants `otok`, `ctok` that lowercase to `<tag>` and
    `</tag>` leaves the result unchanged (equal to the canonical
    all-lowercase spelling). -/
theorem claim_C6_case_insensitive (x otok b ctok tag : List Char)
    (htagne : tag ≠ []) (htaglc : ∀ ch ∈ tag, ch.isLower = true)
    (hotok : pyLower otok = '<' :: (tag ++ ['>']))
    (hctok : pyLower ctok = '<' :: '/' :: (tag ++ ['>']))
    (hb : '<' ∉ b) :
    extract_xml_tag (x ++ (otok ++ (b ++ (ctok ++ [])))) tag
      = extract_xml_tag
          (x ++ (('<' :: (tag ++ ['>'])) ++
            (b ++ (('<' :: '/' :: (tag ++ ['>'])) ++ [])))) tag := by
  rw [extract_shape htagne htaglc hotok hctok hb (by simp),
    extract_shape htagne htaglc (pyLower_open_token htaglc) (pyLower_close_token htaglc) hb
      (by simp)]

theorem claim_C6_witness :
    extract_xml_tag "<A>hello</A>".data "a".data = "hello".data := by
  have h := claim_C6_case_insensitive [] "<A>".data "hello".data "</A>".data "a".data
    (by decide) (by decide) (by decide) (by decide) (by decide)
  rw [show ([] : List Char) ++ ("<A>".data ++ ("hello".data ++ ("</A>".data ++ [])))
      = "<A>hello</A>".data from by decide] at h
  rw [h]
  decide

/-- C7: every result of `extract_xml_tag` and of `extract_response_text` is
    a fixed point of stripping: it carries no leading or trailing
    whitespace. -/
theorem claim_C7_results_trimmed (s tag : List Char) :
    pyStrip (extract_xml_tag s tag) = extract_xml_tag s tag ∧
      pyStrip (extract_response_text s) = extract_response_text s := by
  constructor
  · rcases extract_xml_dichotomy s tag with h | ⟨i, j, h⟩
    · rw [h]
      rfl
    · rw [h, pyStrip_pyStrip]
  · rw [extract_equiv s]
    rcases extract_xml_dichotomy s "response".data with h | ⟨i, j, h⟩
    · rw [h]
      rfl
    · rw [h, pyStrip_pyStrip]

/-- C8: a last instance enclosing only whitespace yields the empty string —
    the same result as a text containing no tag occurrence at all; the two
    situations are indistinguishable from the result. -/
theorem claim_C8_empty_tag_like_absent (x w c tag s' : List Char)
    (htagne : tag ≠ []) (htaglc : ∀ ch ∈ tag, ch.isLower = true)
    (hw : ∀ ch ∈ w, isPyWs ch = true) (hc : '<' ∉ c)
    (habsent : ∀ k < s'.length + 1, occursAt ('<' :: tag) (pyLower s') k = false) :
    extract_xml_tag
        (x ++ (('<' :: (tag ++ ['>'])) ++ (w ++ (('<' :: '/' :: (tag ++ ['>'])) ++ c)))) tag
      = [] ∧
    extract_xml_tag s' tag
      = extract_xml_tag
          (x ++ (('<' :: (tag ++ ['>'])) ++
            (w ++ (('<' :: '/' :: (tag ++ ['>'])) ++ c)))) tag := by
  have h1 : extract_xml_tag
      (x ++ (('<' :: (tag ++ ['>'])) ++ (w ++ (('<' :: '/' :: (tag ++ ['>'])) ++ c)))) tag
      = [] := by
    rw [extract_shape htagne htaglc (pyLower_open_token htaglc) (pyLower_close_token htaglc)
      (fun hmem => absurd (hw '<' hmem) (by decide)) hc]
    exact pyStrip_nil_of_ws hw
  refine ⟨h1, ?_⟩
  rw [h1]
  apply extract_of_no_open
  intro k
  by_cases hks : k ≤ s'.length
  · exact habsent k (by omega)
  · refine occursAt_eq_false_of_length (by simp) ?_
    rw [length_pyLower]
    simp only [List.length_cons]
    omega

theorem claim_C8_witness :
    extract_xml_tag "<a>   </a>".data "a".data = [] ∧
      extract_xml_tag "no tags here".data "a".data = [] := by
  have h := claim_C8_empty_tag_like_absent [] "   ".data [] "a".data "no tags here".data
    (by decide) (by decide) (by decide) (by decide) (by decide)
  obtain ⟨h1, h2⟩ := h
  rw [show ([] : List Char) ++ (('<' :: ("a".data ++ ['>'])) ++
      ("   ".data ++ (('<' :: '/' :: ("a".data ++ ['>'])) ++ [])))
      = "<a>   </a>".data from by decide] at h1 h2
  exact ⟨h1, h2.trans h1⟩

/-- C9: the two extraction strategies coincide on the `response` tag:
    `extract_xml_tag` at tag `"response"` computes exactly
    `extract_response_text`, on every input. -/
theorem claim_C9_strategies_coincide (s : List Char) :
    extract_xml_tag s "response".data = extract_response_text s :=
  (extract_equiv s).symm

/-- C10: when the last opening token (at `st`) is never followed by a `'>'`
    anywhere in the rest of the text, `extract_xml_tag` returns the empty
    string. -/
theorem claim_C10_truncated_open_empty (s tag : List Char) (st : Nat)
    (h1 : occursAt ('<' :: tag) (pyLower s) st = true)
    (h2 : ∀ k < s.length + 1, st < k → occursAt ('<' :: tag) (pyLower s) k = false)
    (h3 : ∀ k < s.length, st ≤ k → occursAt ['>'] s k = false) :
    extract_xml_tag s tag = [] := by
  refine @extract_of_no_gt s tag st ?_ ?_
  · rw [rfindStr_eq_some_iff (by simp)]
    refine ⟨h1, fun k hk => ?_⟩
    by_cases hks : k ≤ s.length
    · exact h2 k (by omega) hk
    · refine occursAt_eq_false_of_length (by simp) ?_
      rw [length_pyLower]
      simp only [List.length_cons]
      omega
  · intro k hk
    by_cases hks : k < s.length
    · exact h3 k hks hk
    · refine occursAt_eq_false_of_length (by simp) ?_
      simp only [List.length_singleton]
      omega

theorem claim_C10_witness : extract_xml_tag "<a attr".data "a".data = [] :=
  claim_C10_truncated_open_empty "<a attr".data "a".data 0
    (by decide) (by decide) (by decide)

end LlmWrapper
